import Mathlib

/-!
Verification of the pyarud classical-Arabic prosody engine.

This file gives a shallow embedding of the core of the repository:
  * `tafeela.py` / `zihaf.py` — metrical feet (Tafeela) and their
    admissible transformations (Zihaf / Ellah);
  * `processor.py` — the greedy per-foot aligner and the poem-level
    meter-detection driver;
  * `arudi.py` — the binary-pattern extraction state machine;
and proves / refutes the frozen specification claims about them.

Python error semantics are modelled explicitly: `assert` failures become
`PyErr.assertionError`, out-of-range subscripts become `PyErr.indexError`,
and `int("")` becomes `PyErr.valueError`.  Fallible operations return
`Except PyErr _`; the enumeration in `Tafeela.all_zehaf_tafeela_forms`
catches only `assertionError`, exactly as the Python `except AssertionError`
does.
-/

deriving instance DecidableEq for Except

/-- Python runtime errors that the embedded code paths can raise. -/
inductive PyErr where
  | assertionError
  | indexError
  | valueError
deriving DecidableEq, Repr

/-- All Zihaf / Ellah rule classes declared in `zihaf.py`. -/
inductive ZehafKind where
  | khaban | tay | waqas | qabadh | kaff | akal | kasf | tasheeth | thalm
  | edmaar | asab
  | ziyada
  | khabal | khazal | shakal | nakas | tayAndKasf | tharm
  | hadhf | hadhfAndKhaban | qataf | qataa | tatheel | tasbeegh
  | tatheelAndEdmaar | tarfeel | tarfeelAndEdmaar | tarfeelAndKhaban
  | khabanAndQataa | qataaAndEdmaar | hathath | hathathAndEdmaar
  | salam | waqf | waqfAndTay | khabalAndKasf | qasar | thalmAndQasar | batr
  | noZehafNorEllah
deriving DecidableEq, Repr

/-- `BaseSingleHazfZehaf` subclasses and their `affected_index` (zihaf.py). -/
def ZehafKind.singleHazfIndex : ZehafKind → Option Nat
  | .khaban => some 1
  | .tay => some 3
  | .waqas => some 1
  | .qabadh => some 4
  | .kaff => some 6
  | .akal => some 4
  | .kasf => some 6
  | .tasheeth => some 2
  | .thalm => some 0
  | _ => none

/-- `BaseSingleTaskeenZehaf` subclasses and their `affected_index` (zihaf.py). -/
def ZehafKind.singleTaskeenIndex : ZehafKind → Option Nat
  | .edmaar => some 1
  | .asab => some 4
  | _ => none

/-- The `zehafs` list of each `BaseDoubledZehaf` subclass (zihaf.py). -/
def ZehafKind.doubledConstituents : ZehafKind → Option (List ZehafKind)
  | .khabal => some [.khaban, .tay]
  | .khazal => some [.edmaar, .tay]
  | .shakal => some [.khaban, .kaff]
  | .nakas => some [.asab, .kaff]
  | .tayAndKasf => some [.tay, .kasf]
  | .tharm => some [.thalm, .qabadh]
  | _ => none

/-- The numeral denoted by a digit list, as Python's `int("".join(...))`
reads it (most-significant digit first; `Nat.ofDigits` is little-endian,
hence the reversal). -/
def digitsToNat (l : List Nat) : Nat := Nat.ofDigits 10 l.reverse

/-- A `Tafeela` object: its (Arabic) name, current bit pattern, the cached
`pattern_int` field, the declared `allowed_zehafs`, and
`applied_ella_zehaf_class`. -/
structure Tafeela where
  name : String
  pattern : List Nat
  pattern_int : Nat
  allowed_zehafs : List ZehafKind
  applied_ella_zehaf_class : Option ZehafKind
deriving DecidableEq, Repr

instance : Inhabited Tafeela := ⟨⟨"", [], 0, [], none⟩⟩

/-- `Tafeela.delete_from_pattern`: delete the bit at `index` when
`0 <= index < len(pattern)`, refreshing `pattern_int`; out of range is a
silent no-op.  Deleting the only bit leaves `int("")`, i.e. a
`ValueError`. -/
def Tafeela.delete_from_pattern (t : Tafeela) (index : Int) : Except PyErr Tafeela :=
  if 0 ≤ index ∧ index < (t.pattern.length : Int) then
    let p := t.pattern.eraseIdx index.toNat
    if p = [] then .error .valueError
    else .ok { t with pattern := p, pattern_int := digitsToNat p }
  else .ok t

/-- Python `list.insert` semantics: a negative index counts from the end
(clamped at 0), an index past the end appends. -/
def pyInsertIdx (l : List Nat) (i : Int) (x : Nat) : List Nat :=
  let n : Int := l.length
  let j := if i < 0 then max (i + n) 0 else min i n
  l.insertIdx j.toNat x

/-- `Tafeela.add_to_pattern`: insert `number` at `index` and refresh
`pattern_int` (the `char_mask` argument is unused in the source). -/
def Tafeela.add_to_pattern (t : Tafeela) (index : Int) (number : Nat) : Tafeela :=
  let p := pyInsertIdx t.pattern index number
  { t with pattern := p, pattern_int := digitsToNat p }

/-- `Tafeela.edit_pattern_at_index`: overwrite the bit at `index` when
`0 <= index < len(pattern)`, refreshing `pattern_int`; out of range is a
silent no-op. -/
def Tafeela.edit_pattern_at_index (t : Tafeela) (index : Int) (number : Nat) : Tafeela :=
  if 0 ≤ index ∧ index < (t.pattern.length : Int) then
    let p := t.pattern.set index.toNat number
    { t with pattern := p, pattern_int := digitsToNat p }
  else t

/-- Python subscript `l[i]` for a non-negative index: `IndexError` when out
of range. -/
def pyGet (l : List Nat) (i : Nat) : Except PyErr Nat :=
  match l.get? i with
  | some v => .ok v
  | none => .error .indexError

/-- Python slice `l[-n:]` (`n ≥ 1`): the last `min n (length l)` elements. -/
def pyTail (n : Nat) (l : List Nat) : List Nat := l.drop (l.length - n)

/-- Descending insertion used to model Python's `sorted(..., reverse=True)`
on natural numbers. -/
def insertDesc (x : Nat) : List Nat → List Nat
  | [] => [x]
  | y :: ys => if x < y then y :: insertDesc x ys else x :: y :: ys

/-- `sorted(indices, reverse=True)`. -/
def sortDesc (l : List Nat) : List Nat := l.foldr insertDesc []

/-- `modify_tafeela` for every non-composite rule class of `zihaf.py`
(single deletions, single devocalizations, and the base Ellah rules).
The `assert` statements are translated in evaluation order: a subscript
that does not exist raises `indexError` before the assertion is decided. -/
def modifyL1 (k : ZehafKind) (t : Tafeela) : Except PyErr Tafeela :=
  match k.singleHazfIndex with
  | some i => t.delete_from_pattern i
  | none =>
  match k.singleTaskeenIndex with
  | some i => do
      let b ← pyGet t.pattern i
      if b = 1 then pure (t.edit_pattern_at_index i 0)
      else .error .assertionError
  | none =>
  match k with
  | .ziyada => pure (t.add_to_pattern 3 1)
  | .hadhf =>
      if pyTail 2 t.pattern = [1, 0] then do
        let t1 ← t.delete_from_pattern ((t.pattern.length : Int) - 1)
        t1.delete_from_pattern ((t1.pattern.length : Int) - 1)
      else .error .assertionError
  | .qataa =>
      if pyTail 2 t.pattern = [1, 0] then do
        let t1 ← t.delete_from_pattern ((t.pattern.length : Int) - 1)
        pure (t1.edit_pattern_at_index ((t1.pattern.length : Int) - 1) 0)
      else .error .assertionError
  | .qasar =>
      if pyTail 2 t.pattern = [1, 0] then do
        let t1 ← t.delete_from_pattern ((t.pattern.length : Int) - 1)
        pure (t1.edit_pattern_at_index ((t1.pattern.length : Int) - 1) 0)
      else .error .assertionError
  | .tatheel =>
      if pyTail 3 t.pattern = [1, 1, 0] then
        pure (t.add_to_pattern ((t.pattern.length : Int) - 1) 0)
      else .error .assertionError
  | .tasbeegh =>
      if pyTail 2 t.pattern = [1, 0] then
        pure (t.add_to_pattern ((t.pattern.length : Int) - 1) 0)
      else .error .assertionError
  | .tarfeel =>
      let t1 := t.add_to_pattern (t.pattern.length : Int) 1
      pure (t1.add_to_pattern (t1.pattern.length : Int) 0)
  | .hathath =>
      if pyTail 3 t.pattern = [1, 1, 0] then do
        let t1 ← t.delete_from_pattern ((t.pattern.length : Int) - 1)
        let t2 ← t1.delete_from_pattern ((t1.pattern.length : Int) - 1)
        t2.delete_from_pattern ((t2.pattern.length : Int) - 1)
      else .error .assertionError
  | .salam =>
      if pyTail 3 t.pattern = [1, 0, 1] then do
        let t1 ← t.delete_from_pattern ((t.pattern.length : Int) - 1)
        let t2 ← t1.delete_from_pattern ((t1.pattern.length : Int) - 1)
        t2.delete_from_pattern ((t2.pattern.length : Int) - 1)
      else .error .assertionError
  | .waqf =>
      if pyTail 3 t.pattern = [1, 0, 1] then
        pure (t.edit_pattern_at_index ((t.pattern.length : Int) - 1) 0)
      else .error .assertionError
  | _ => pure t

/-- `modified_tafeela` for a non-composite rule: run `modify_tafeela` and
record the applied class (no rule class defines `assertions`, so the
`hasattr` guard in `zihaf.py` never fires). -/
def applyL1 (k : ZehafKind) (t : Tafeela) : Except PyErr Tafeela :=
  (modifyL1 k t).map (fun t' => { t' with applied_ella_zehaf_class := some k })

/-- `BaseDoubledZehaf.modify_tafeela`: partition the declared constituents
into deletions and devocalizations, apply all deletions first at indices
sorted descending, then the devocalizations in declared order (each via its
own `modified_tafeela`). -/
def modifyDoubled (zs : List ZehafKind) (t : Tafeela) : Except PyErr Tafeela := do
  let hazf := zs.filter (fun z => z.singleHazfIndex.isSome)
  let taskeen := zs.filter (fun z => z.singleTaskeenIndex.isSome)
  let indices := sortDesc (hazf.filterMap ZehafKind.singleHazfIndex)
  let t1 ← indices.foldlM (fun acc i => acc.delete_from_pattern (i : Int)) t
  taskeen.foldlM (fun acc z => applyL1 z acc) t1

/-- `modify_tafeela` for every rule class (composite `...And...` classes
chain the `modified_tafeela` of their parts in the order written in the
source). -/
def modifyZehaf (k : ZehafKind) (t : Tafeela) : Except PyErr Tafeela :=
  match k with
  | .khabal | .khazal | .shakal | .nakas | .tayAndKasf | .tharm =>
      modifyDoubled (k.doubledConstituents.getD []) t
  | .hadhfAndKhaban => applyL1 .hadhf t >>= applyL1 .khaban
  | .qataf => applyL1 .hadhf t >>= applyL1 .asab
  | .tatheelAndEdmaar => applyL1 .tatheel t >>= applyL1 .edmaar
  | .tarfeelAndEdmaar => applyL1 .tarfeel t >>= applyL1 .edmaar
  | .tarfeelAndKhaban => applyL1 .khaban t >>= applyL1 .tarfeel
  | .khabanAndQataa => applyL1 .qataa t >>= applyL1 .khaban
  | .qataaAndEdmaar => applyL1 .qataa t >>= applyL1 .edmaar
  | .hathathAndEdmaar => applyL1 .hathath t >>= applyL1 .edmaar
  | .waqfAndTay => applyL1 .tay t >>= applyL1 .waqf
  | .thalmAndQasar => applyL1 .thalm t >>= applyL1 .qasar
  | .batr => applyL1 .hadhf t >>= applyL1 .qataa
  | .khabalAndKasf => do
      -- Khabal's full modified_tafeela, then Kasf with affected_index 6 - 2.
      let t1 ← (modifyDoubled [.khaban, .tay] t).map
        (fun x => { x with applied_ella_zehaf_class := some .khabal })
      let t2 ← t1.delete_from_pattern 4
      pure { t2 with applied_ella_zehaf_class := some .kasf }
  | _ => modifyL1 k t

/-- `modified_tafeela` of any rule applied to (a deep copy of) `t`.
`NoZehafNorEllah` overrides the property: it performs no modification and
clears `applied_ella_zehaf_class`. -/
def applyZehaf (k : ZehafKind) (t : Tafeela) : Except PyErr Tafeela :=
  match k with
  | .noZehafNorEllah => .ok { t with applied_ella_zehaf_class := none }
  | _ => (modifyZehaf k t).map (fun t' => { t' with applied_ella_zehaf_class := some k })

/-- The loop body of `Tafeela.all_zehaf_tafeela_forms`: apply each allowed
rule, skipping (only) `AssertionError`s; any other error propagates to the
caller at the iteration that raised it. -/
def allFormsAux (t : Tafeela) : List ZehafKind → Except PyErr (List Tafeela)
  | [] => .ok []
  | z :: zs =>
    match applyZehaf z t with
    | .ok f => (allFormsAux t zs).map (fun rest => f :: rest)
    | .error .assertionError => allFormsAux t zs
    | .error e => .error e

/-- `Tafeela.all_zehaf_tafeela_forms`: the object itself followed by the
result of each allowed rule whose preconditions hold. -/
def Tafeela.all_zehaf_tafeela_forms (t : Tafeela) : Except PyErr (List Tafeela) :=
  (allFormsAux t t.allowed_zehafs).map (fun fs => t :: fs)

/-- `Tafeela.__eq__`: equality is comparison of the `pattern_int` fields
(the names play no role). -/
def tafeelaEq (a b : Tafeela) : Bool := a.pattern_int == b.pattern_int

/-! The static Tafeela catalog of `tafeela.py`. -/

def Fawlon : Tafeela :=
  { name := "فعولن", pattern := [1, 1, 0, 1, 0], pattern_int := 11010,
    allowed_zehafs := [.qabadh, .thalm, .tharm], applied_ella_zehaf_class := none }

def Faelon : Tafeela :=
  { name := "فاعلن", pattern := [1, 0, 1, 1, 0], pattern_int := 10110,
    allowed_zehafs := [.khaban, .tasheeth], applied_ella_zehaf_class := none }

def Mafaeelon : Tafeela :=
  { name := "مفاعيلن", pattern := [1, 1, 0, 1, 0, 1, 0], pattern_int := 1101010,
    allowed_zehafs := [.qabadh, .kaff], applied_ella_zehaf_class := none }

def Mustafelon : Tafeela :=
  { name := "مستفعلن", pattern := [1, 0, 1, 0, 1, 1, 0], pattern_int := 1010110,
    allowed_zehafs := [.khaban, .tay, .khabal], applied_ella_zehaf_class := none }

def Mutafaelon : Tafeela :=
  { name := "متفاعلن", pattern := [1, 1, 1, 0, 1, 1, 0], pattern_int := 1110110,
    allowed_zehafs := [.edmaar, .waqas, .khazal], applied_ella_zehaf_class := none }

def Mafaelaton : Tafeela :=
  { name := "مفاعلتن", pattern := [1, 1, 0, 1, 1, 1, 0], pattern_int := 1101110,
    allowed_zehafs := [.asab, .akal, .nakas], applied_ella_zehaf_class := none }

def Mafoolato : Tafeela :=
  { name := "مفعولات", pattern := [1, 0, 1, 0, 1, 0, 1], pattern_int := 1010101,
    allowed_zehafs := [.khaban, .tay, .khabal, .kasf], applied_ella_zehaf_class := none }

def Fae_laton : Tafeela :=
  { name := "فاع لاتن", pattern := [1, 0, 1, 1, 0, 1, 0], pattern_int := 1011010,
    allowed_zehafs := [.kaff], applied_ella_zehaf_class := none }

def Mustafe_lon : Tafeela :=
  { name := "مستفع لن", pattern := [1, 0, 1, 0, 1, 1, 0], pattern_int := 1010110,
    allowed_zehafs := [.khaban, .kaff, .tay, .shakal], applied_ella_zehaf_class := none }

def Faelaton : Tafeela :=
  { name := "فاعلاتن", pattern := [1, 0, 1, 1, 0, 1, 0], pattern_int := 1011010,
    allowed_zehafs := [.khaban, .kaff, .shakal], applied_ella_zehaf_class := none }

/-- The ten catalog feet, in declaration order. -/
def catalogTafeelas : List Tafeela :=
  [Fawlon, Faelon, Mafaeelon, Mustafelon, Mutafaelon,
   Mafaelaton, Mafoolato, Fae_laton, Mustafe_lon, Faelaton]

/-- Modelled from the spec: applying a composite's constituent rules
"strictly in the declared order, propagating the result of each into the
next".  Used only to compare the spec's wording with what
`BaseDoubledZehaf.modify_tafeela` actually computes. -/
def declaredOrderApply (zs : List ZehafKind) (t : Tafeela) : Except PyErr Tafeela :=
  zs.foldlM (fun acc z => applyL1 z acc) t

/-!
### Every (last-foot, ending-rule) application performed by `bahr.py`

`Bahr.detailed_patterns` and `Bahr.get_allowed_feet_patterns` apply the
classes of each meter's `arod_dharbs_map` (keys, values, or the plain set
for single-hemistich meters) to `self.last_tafeela`.  Together with the
forms produced by `all_zehaf_tafeela_forms`, these are all transformed
Tafeela values the system ever constructs.
-/
def bahrEndingPairs : List (Tafeela × ZehafKind) :=
  [ -- Taweel (last foot Mafaeelon)
   (Mafaeelon, .qabadh), (Mafaeelon, .hadhf), (Mafaeelon, .noZehafNorEllah),
   -- Madeed (Faelaton)
   (Faelaton, .noZehafNorEllah), (Faelaton, .hadhf), (Faelaton, .qataa),
   (Faelaton, .hadhfAndKhaban),
   -- Baseet (Faelon) and BaseetMajzoo / BaseetMukhalla (Mustafelon)
   (Faelon, .khaban), (Faelon, .qataa),
   (Mustafelon, .noZehafNorEllah), (Mustafelon, .tatheel), (Mustafelon, .qataa),
   (Mustafelon, .khabanAndQataa),
   -- Wafer / WaferMajzoo (Mafaelaton)
   (Mafaelaton, .qataf), (Mafaelaton, .noZehafNorEllah), (Mafaelaton, .asab),
   -- Kamel / KamelMajzoo (Mutafaelon)
   (Mutafaelon, .noZehafNorEllah), (Mutafaelon, .edmaar), (Mutafaelon, .qataa),
   (Mutafaelon, .qataaAndEdmaar), (Mutafaelon, .hathath), (Mutafaelon, .hathathAndEdmaar),
   (Mutafaelon, .tatheel), (Mutafaelon, .tatheelAndEdmaar),
   (Mutafaelon, .tarfeel), (Mutafaelon, .tarfeelAndEdmaar),
   -- Hazaj (Mafaeelon)
   (Mafaeelon, .kaff),
   -- Rajaz and its sub-bahrs (Mustafelon)
   (Mustafelon, .khaban), (Mustafelon, .tay), (Mustafelon, .khabal),
   -- Ramal / RamalMajzoo (Faelaton)
   (Faelaton, .khaban), (Faelaton, .khabanAndQataa), (Faelaton, .tasbeegh),
   -- Saree / SareeMashtoor, Munsareh / MunsarehManhook (Mafoolato, Mustafelon)
   (Mafoolato, .tayAndKasf), (Mafoolato, .salam), (Mafoolato, .waqfAndTay),
   (Mafoolato, .khabalAndKasf), (Mafoolato, .waqf), (Mafoolato, .kasf),
   (Mustafelon, .qataa),
   -- Khafeef / KhafeefMajzoo (Faelaton, Mustafe_lon)
   (Faelaton, .tasheeth),
   (Mustafe_lon, .noZehafNorEllah), (Mustafe_lon, .khabanAndQataa), (Mustafe_lon, .khaban),
   -- Mudhare (Fae_laton)
   (Fae_laton, .noZehafNorEllah),
   -- Muqtadheb (Mustafelon)
   (Mustafelon, .tay),
   -- Mujtath (Faelaton)
   (Faelaton, .tasheeth),
   -- Mutakareb / MutakarebMajzoo (Fawlon)
   (Fawlon, .noZehafNorEllah), (Fawlon, .hadhf), (Fawlon, .qataa), (Fawlon, .batr),
   (Fawlon, .qabadh),
   -- Mutadarak and its sub-bahrs (Faelon)
   (Faelon, .noZehafNorEllah), (Faelon, .tasheeth), (Faelon, .tatheel),
   (Faelon, .tarfeelAndKhaban)]

/-- Every Tafeela value the system constructs: the canonical catalog feet,
all forms produced by enumerating each foot's declared transformations, and
all hemistich-final forms produced during pattern-universe generation. -/
def reachableTafeelas : List Tafeela :=
  catalogTafeelas ++
    catalogTafeelas.flatMap (fun t => ((allFormsAux t t.allowed_zehafs).toOption).getD []) ++
    bahrEndingPairs.filterMap (fun p => (applyZehaf p.2 p.1).toOption)

/-!
### Heap model of object identity (for the deep-copy / mutation claim)

`zihaf.py` mutates `self.tafeela` in place, but `BaseEllahZehaf.__init__`
first deep-copies its argument into `self.tafeela`.  To make the mutation
visible we model a heap of Tafeela objects addressed by allocation index;
all writes target the zehaf's own (freshly copied) cell.
-/

/-- A heap of `Tafeela` objects, addressed by index. -/
abbrev TafHeap := List Tafeela

/-- Read the object at an address (arbitrary default for dangling reads). -/
def heapRead (h : TafHeap) (a : Nat) : Tafeela := h.getD a default

/-- Allocate a new cell, returning the new heap and the fresh address. -/
def heapAlloc (h : TafHeap) (t : Tafeela) : TafHeap × Nat := (h ++ [t], h.length)

/-- `BaseEllahZehaf.__init__(tafeela)`: `self.tafeela = deepcopy(tafeela)` —
a fresh cell holding a copy of the argument's current value. -/
def zehafInitHeap (h : TafHeap) (a : Nat) : TafHeap × Nat := heapAlloc h (heapRead h a)

/-- `modified_tafeela` on the heap: every mutation in `zihaf.py` targets
`self.tafeela`, so the net effect is one write of the transformed value into
the zehaf's own cell; on an uncaught error the write is irrelevant to any
observer (the exception propagates), so the heap is returned as-is. -/
def modifiedTafeelaHeap (k : ZehafKind) (h : TafHeap) (selfAddr : Nat) :
    TafHeap × Except PyErr Nat :=
  match applyZehaf k (heapRead h selfAddr) with
  | .ok t' => (h.set selfAddr t', .ok selfAddr)
  | .error e => (h, .error e)

/-- Construct a zehaf object on `heapRead h a` and run `modified_tafeela`. -/
def applyZehafHeap (k : ZehafKind) (h : TafHeap) (a : Nat) : TafHeap × Except PyErr Nat :=
  let (h1, copyAddr) := zehafInitHeap h a
  modifiedTafeelaHeap k h1 copyAddr

/-- The loop of `all_zehaf_tafeela_forms` on the heap: each allowed rule is
constructed on the same `self` address; `AssertionError`s are skipped. -/
def allFormsHeapAux (a : Nat) : List ZehafKind → TafHeap → TafHeap × Except PyErr (List Nat)
  | [], h => (h, .ok [])
  | z :: rest, h =>
    match applyZehafHeap z h a with
    | (h1, .ok addr) =>
      match allFormsHeapAux a rest h1 with
      | (h2, .ok addrs) => (h2, .ok (addr :: addrs))
      | (h2, .error e) => (h2, .error e)
    | (h1, .error .assertionError) => allFormsHeapAux a rest h1
    | (h1, .error e) => (h1, .error e)

/-- `all_zehaf_tafeela_forms` on the heap: the result list starts with the
address of `self` itself. -/
def allFormsHeap (h : TafHeap) (a : Nat) : TafHeap × Except PyErr (List Nat) :=
  match allFormsHeapAux a (heapRead h a).allowed_zehafs h with
  | (h1, .ok addrs) => (h1, .ok (a :: addrs))
  | r => r

/-!
### `processor.py` — greedy foot alignment and poem processing

Python strings are modelled as `List Char`; the float-valued similarity
`_get_similarity` (a `difflib` ratio raised to the 6th power) is an
abstraction parameter `sim : List Char → List Char → ℚ`, so every theorem
below holds for the concrete similarity as a special case.
-/

/-- Python's banker's rounding of a rational to the nearest integer. -/
def roundHalfEven (q : ℚ) : Int :=
  let n : Int := q.floor
  let f : ℚ := q - n
  if f < 1 / 2 then n
  else if 1 / 2 < f then n + 1
  else if n % 2 = 0 then n else n + 1

/-- Python `round(q, k)`. -/
def pyRound (q : ℚ) (k : Nat) : ℚ := (roundHalfEven (q * 10 ^ k) : ℚ) / 10 ^ k

/-- The literal `"MISSING"` sentinel used by `_analyze_feet`. -/
def missingSentinel : List Char := "MISSING".toList

/-- Stable insertion for `sorted(candidates, key=len, reverse=True)`:
walk past strictly longer entries, so equal lengths keep source order. -/
def insertByLenDesc (x : List Char) : List (List Char) → List (List Char)
  | [] => [x]
  | y :: ys => if x.length < y.length then y :: insertByLenDesc x ys else x :: y :: ys

/-- `sorted(candidates, key=len, reverse=True)`. -/
def sortByLenDesc (l : List (List Char)) : List (List Char) := l.foldr insertByLenDesc []

/-- Foot-diagnosis statuses emitted by `_analyze_feet`. -/
inductive FootStatus where
  | ok | broken | missing | extra_bits
deriving DecidableEq, Repr

/-- One per-foot diagnostic entry of `_analyze_feet`. -/
structure FootEntry where
  foot_index : Nat
  expected_pattern : List Char
  actual_segment : List Char
  score : ℚ
  status : FootStatus
deriving DecidableEq, Repr

/-- The candidate loop of `_analyze_feet`: try each candidate against the
input slice of its own length at the cursor; an empty slice breaks out, a
perfect full-length match is taken immediately, otherwise the strictly
best score seen wins. -/
def findBestLocal (sim : List Char → List Char → ℚ) (input : List Char) (cur : Nat) :
    List (List Char) → Option (List Char) → ℚ → Option (List Char) × ℚ
  | [], best, bestScore => (best, bestScore)
  | cand :: rest, best, bestScore =>
    let segment := (input.drop cur).take cand.length
    if segment = [] then (best, bestScore)
    else
      let score := sim cand segment
      if segment.length = cand.length ∧ score = 1 then (some cand, 1)
      else if bestScore < score then findBestLocal sim input cur rest (some cand) score
      else findBestLocal sim input cur rest best bestScore

/-- Python truthiness of `best_local_match` (None and `""` are falsy). -/
def pyFalsyOpt (o : Option (List Char)) : Bool := o == none || o == some []

/-- The candidate finally accepted for one foot: the loop's best, defaulted
to the longest candidate when the loop produced nothing truthy. -/
def acceptedCandidate (sim : List Char → List Char → ℚ) (input : List Char)
    (cands0 : List (List Char)) (cur : Nat) : Option (List Char) :=
  let candidates := sortByLenDesc cands0
  let best0 := (findBestLocal sim input cur candidates none (-1)).1
  if pyFalsyOpt best0 ∧ candidates ≠ [] then some (candidates.headD []) else best0

/-- One iteration of the foot loop of `_analyze_feet`: produce the entry for
foot `i` and the new cursor. -/
def analyzeFootStep (sim : List Char → List Char → ℚ) (input : List Char)
    (cands0 : List (List Char)) (i cur : Nat) : FootEntry × Nat :=
  let candidates := sortByLenDesc cands0
  let best1 := acceptedCandidate sim input cands0 cur
  if pyFalsyOpt best1 then
    ({ foot_index := i,
       expected_pattern := if candidates ≠ [] then candidates.headD [] else ['?'],
       actual_segment := missingSentinel, score := 0, status := .missing }, cur)
  else
    let best := best1.getD []
    let consume_len := best.length
    let end_idx := min (cur + consume_len) input.length
    let actual := (input.drop cur).take (end_idx - cur)
    let final_score := sim best actual
    let status : FootStatus :=
      if actual = [] then .missing else if final_score = 1 then .ok else .broken
    ({ foot_index := i, expected_pattern := best, actual_segment := actual,
       score := pyRound final_score 2, status := status }, end_idx)

/-- The foot loop of `_analyze_feet`, returning the entries and the final
cursor position. -/
def analyzeFeetAux (sim : List Char → List Char → ℚ) (input : List Char) :
    List (List (List Char)) → Nat → Nat → List FootEntry × Nat
  | [], _, cur => ([], cur)
  | cands :: rest, i, cur =>
    let (entry, cur') := analyzeFootStep sim input cands i cur
    let (es, curF) := analyzeFeetAux sim input rest (i + 1) cur'
    (entry :: es, curF)

/-- A reference-pattern record of a precomputed meter universe
(`detailed_patterns` entries: the full hemistich pattern and its per-foot
strings). -/
structure RefItem where
  pattern : List Char
  feet : List (List Char)
deriving DecidableEq, Repr

/-- `_analyze_feet`: greedy left-to-right alignment of `input` against the
per-position admissible candidate sets (falling back to the best reference's
feet when no admissible sets were supplied), followed by a trailing
`extra_bits` entry for unconsumed input. -/
def analyzeFeet (sim : List Char → List Char → ℚ) (input : List Char)
    (allowed : List (List (List Char))) (bestRef : Option RefItem) : List FootEntry :=
  let refFeet := match bestRef with | some r => r.feet | none => []
  -- num_feet and per-position candidates: `allowed[i]` when supplied,
  -- otherwise `[ref_feet_backup[i]]` for each i < len(ref_feet_backup)
  let candsList := if allowed ≠ [] then allowed else refFeet.map (fun f => [f])
  let (entries, cur) := analyzeFeetAux sim input candsList 0 0
  if cur < input.length then
    entries ++ [{ foot_index := candsList.length, expected_pattern := [],
                  actual_segment := input.drop cur, score := 0, status := .extra_bits }]
  else entries

instance : Inhabited RefItem := ⟨⟨[], []⟩⟩

/-- `_find_best_component_match`: best strictly-improving similarity over
the reference list, starting from score `-1` and no reference. -/
structure CompMatch where
  score : ℚ
  ref : Option RefItem
deriving DecidableEq, Repr

def findBestComponentMatch (sim : List Char → List Char → ℚ) (input : List Char)
    (comps : List RefItem) : CompMatch :=
  comps.foldl
    (fun acc item =>
      let score := sim item.pattern input
      if acc.score < score then { score := score, ref := some item } else acc)
    { score := -1, ref := none }

/-- A precomputed meter universe, as stored in
`ArudhProcessor.precomputed_patterns[name]`. -/
structure MeterPatterns where
  sadr : List RefItem
  ajuz : List RefItem
  pairs : List (List Char × List Char)
deriving DecidableEq, Repr

/-- One candidate record built by `_find_best_meter` for one meter. -/
structure MeterCandidate where
  meter : String
  score : ℚ
  sadr_match : CompMatch
  ajuz_match : Option CompMatch
  valid_pair : Bool
deriving DecidableEq, Repr

/-- The `METER_PRIORITY` table of `_find_best_meter`. -/
def METER_PRIORITY : List (String × Int) :=
  [("rajaz", 20), ("kamel", 10), ("hazaj", 20), ("wafer", 10), ("saree", 20),
   ("munsareh", 10), ("baseet", 10), ("ramal", 15), ("mutadarak", 15), ("mutakareb", 15)]

def meterPriority (n : String) : Int := (METER_PRIORITY.lookup n).getD 0

/-- The sort key of `_find_best_meter`: rounded score, pair validity,
priority weight. -/
def candKey (c : MeterCandidate) : ℚ × Bool × Int :=
  (pyRound c.score 3, c.valid_pair, meterPriority c.meter)

/-- Strict lexicographic order on sort keys (`False < True` for the Bool). -/
def keyLt (a b : ℚ × Bool × Int) : Bool :=
  decide (a.1 < b.1) ||
    (a.1 == b.1 &&
      ((!a.2.1 && b.2.1) || (a.2.1 == b.2.1 && decide (a.2.2 < b.2.2))))

/-- Stable descending insertion by `candKey` (mirrors Python's stable
`sort(..., reverse=True)`). -/
def insertCandDesc (x : MeterCandidate) : List MeterCandidate → List MeterCandidate
  | [] => [x]
  | y :: ys => if keyLt (candKey x) (candKey y) then y :: insertCandDesc x ys else x :: y :: ys

def sortCandsDesc (l : List MeterCandidate) : List MeterCandidate := l.foldr insertCandDesc []

/-- The per-meter body of `_find_best_meter`'s loop. -/
def meterCandidate (sim : List Char → List Char → ℚ) (name : String) (ps : MeterPatterns)
    (sadrP ajuzP : List Char) : MeterCandidate :=
  let bestSadr := findBestComponentMatch sim sadrP ps.sadr
  let bestAjuz := if ajuzP ≠ [] then some (findBestComponentMatch sim ajuzP ps.ajuz) else none
  let sScore := bestSadr.score
  let aScore := match bestAjuz with | some m => m.score | none => 0
  let validPair : Bool :=
    if bestSadr.ref.isSome ∧ (ajuzP = [] ∨ (bestAjuz.bind CompMatch.ref).isSome) then
      let sPat := (bestSadr.ref.getD default).pattern
      let aPat := match bestAjuz with
        | some m => (m.ref.getD default).pattern
        | none => []
      decide ((sPat, aPat) ∈ ps.pairs)
    else false
  { meter := name,
    score := if ajuzP ≠ [] then (sScore + aScore) / 2 else sScore,
    sadr_match := bestSadr, ajuz_match := bestAjuz, valid_pair := validPair }

/-- `_find_best_meter`: one candidate per catalog meter, sorted descending
by (rounded score, pair validity, priority). -/
def findBestMeter (sim : List Char → List Char → ℚ) (table : List (String × MeterPatterns))
    (sadrP ajuzP : List Char) : List MeterCandidate :=
  sortCandsDesc (table.map (fun p => meterCandidate sim p.1 p.2 sadrP ajuzP))

/-- First-encounter-order deduplication (the iteration order of a Python
`Counter`). -/
def dedupAux : List String → List String → List String
  | _, [] => []
  | seen, x :: xs => if x ∈ seen then dedupAux seen xs else x :: dedupAux (x :: seen) xs

def dedupKeepFirst (l : List String) : List String := dedupAux [] l

/-- `Counter.most_common(1)`: the earliest-encountered element of maximal
multiplicity, if any. -/
def mostCommon1 (l : List String) : Option String :=
  (dedupKeepFirst l).foldl
    (fun acc x =>
      match acc with
      | none => some x
      | some b => if l.count b < l.count x then some x else acc)
    none

/-- The per-verse record accumulated in `temp_results`. -/
structure VerseTemp where
  index : Nat
  sadr_text : List Char
  sadr_pattern : List Char
  sadr_arudi : List Char
  ajuz_text : List Char
  ajuz_pattern : List Char
  ajuz_arudi : List Char
  matchInfo : Option MeterCandidate
deriving DecidableEq, Repr

/-- The per-verse analysis record built by `_analyze_verse`. -/
structure VerseResult where
  verse_index : Nat
  sadr_text : List Char
  ajuz_text : List Char
  input_pattern : List Char
  best_ref_pattern : List Char
  score : ℚ
  sadr_analysis : List FootEntry
  ajuz_analysis : Option (List FootEntry)
deriving DecidableEq, Repr

/-- `_analyze_verse` either reports `Meter data not found` (scoped to the
verse) or a full record. -/
inductive VerseAnalysis where
  | dataError
  | ok (r : VerseResult)
deriving DecidableEq, Repr

/-- `_analyze_verse`: re-match the verse against the chosen meter and run
the greedy foot diagnosis on each hemistich.  `feetOf` abstracts
`meter_classes.get(name)` followed by `get_allowed_feet_patterns(0/1)`. -/
def analyzeVerse (sim : List Char → List Char → ℚ) (table : List (String × MeterPatterns))
    (feetOf : String → Option (List (List (List Char)) × List (List (List Char))))
    (gm : String) (res : VerseTemp) : VerseAnalysis :=
  match table.lookup gm with
  | none => .dataError
  | some ps =>
    let sadrMatch := findBestComponentMatch sim res.sadr_pattern ps.sadr
    let ajuzMatch :=
      if res.ajuz_pattern ≠ [] then some (findBestComponentMatch sim res.ajuz_pattern ps.ajuz)
      else none
    let allowedPair := (feetOf gm).getD ([], [])
    let sadrAnalysis := analyzeFeet sim res.sadr_pattern allowedPair.1 sadrMatch.ref
    let ajuzAnalysis :=
      if res.ajuz_pattern ≠ [] then
        some (analyzeFeet sim res.ajuz_pattern allowedPair.2
          ((ajuzMatch.getD { score := -1, ref := none }).ref))
      else none
    .ok
      { verse_index := res.index, sadr_text := res.sadr_text, ajuz_text := res.ajuz_text,
        input_pattern := res.sadr_pattern ++ res.ajuz_pattern,
        best_ref_pattern :=
          (match sadrMatch.ref with | some r => r.pattern | none => []) ++
          (match ajuzMatch with
           | some m => match m.ref with | some r => r.pattern | none => []
           | none => []),
        score := pyRound
          ((sadrMatch.score + (match ajuzMatch with | some m => m.score | none => 0)) /
            (if ajuzMatch.isSome then 2 else 1)) 2,
        sadr_analysis := sadrAnalysis, ajuz_analysis := ajuzAnalysis }

/-- Python truthiness of the `meter_name` argument (`None` and `""` are
falsy, so neither forces a meter). -/
def pyTruthyName : Option String → Bool
  | none => false
  | some s => s ≠ ""

/-- `process_poem` returns either the single top-level detection error or a
meter name with per-verse analyses. -/
inductive PoemResult where
  | errorResult (msg : String)
  | result (meter : String) (verses : List VerseAnalysis)
deriving DecidableEq, Repr

/-- The detection loop body of `process_poem` for one verse: convert both
hemistichs (`prep` abstracts `converter.prepare_text`), blank the ajuz
pattern for single-hemistich input, and auto-detect unless a meter was
forced. -/
def prepareVerse (sim : List Char → List Char → ℚ) (prep : List Char → List Char × List Char)
    (table : List (String × MeterPatterns)) (forced : Bool) (i : Nat)
    (sadr ajuz : List Char) : VerseTemp :=
  let sadrPrep := prep sadr
  let ajuzPrep := prep ajuz
  let ajuzPat := if ajuz = [] then [] else ajuzPrep.2
  let matchInfo :=
    if forced then none
    else
      match findBestMeter sim table sadrPrep.2 ajuzPat with
      | [] => none
      | c :: _ => some c
  { index := i, sadr_text := sadr, sadr_pattern := sadrPrep.2, sadr_arudi := sadrPrep.1,
    ajuz_text := ajuz, ajuz_pattern := ajuzPat, ajuz_arudi := ajuzPrep.1,
    matchInfo := matchInfo }

/-- `for i, (sadr, ajuz) in enumerate(verses): ...` -/
def buildTemp (sim : List Char → List Char → ℚ) (prep : List Char → List Char × List Char)
    (table : List (String × MeterPatterns)) (forced : Bool) :
    Nat → List (List Char × List Char) → List VerseTemp
  | _, [] => []
  | i, v :: vs =>
    prepareVerse sim prep table forced i v.1 v.2 ::
      buildTemp sim prep table forced (i + 1) vs

/-- `ArudhProcessor.process_poem`, parameterised over the text converter
(`prep`), the similarity function, the precomputed pattern table and the
allowed-feet lookup. -/
def processPoem (sim : List Char → List Char → ℚ) (prep : List Char → List Char × List Char)
    (table : List (String × MeterPatterns))
    (feetOf : String → Option (List (List (List Char)) × List (List (List Char))))
    (verses : List (List Char × List Char)) (meterName : Option String) : PoemResult :=
  let forced := pyTruthyName meterName
  let temp := buildTemp sim prep table forced 0 verses
  let detected := temp.filterMap (fun r => r.matchInfo.map (fun c => c.meter))
  if forced then
    let gm := meterName.getD ""
    .result gm (temp.map (analyzeVerse sim table feetOf gm))
  else
    match mostCommon1 detected with
    | some gm => .result gm (temp.map (analyzeVerse sim table feetOf gm))
    | none => .errorResult "Could not detect any valid meter."

/-!
### `arudi.py` — binary-pattern extraction (`ArudiConverter._extract_pattern`)

Character constants follow the external `pyarabic.araby` collaborator
(treated by the spec as fixed configuration: Unicode code points for each
diacritic and letter class).
-/

def KASRA : Char := 'ِ'
def FATHA : Char := 'َ'
def DAMMA : Char := 'ُ'
def SUKUN : Char := 'ْ'
def SHADDA : Char := 'ّ'
def FATHATAN : Char := 'ً'
def DAMMATAN : Char := 'ٌ'
def KASRATAN : Char := 'ٍ'
def ALEF : Char := 'ا'
def ALEF_MADDA : Char := 'آ'
def ALEF_MAKSURA : Char := 'ى'
def WAW : Char := 'و'
def YEH : Char := 'ي'
def HAMZA : Char := 'ء'
def HEH : Char := 'ه'
def NOON : Char := 'ن'

/-- The letter set `pyarabic.araby.LETTERS` (the Arabic consonant/letter
inventory supplied by the collaborator library). -/
def LETTERS : List Char :=
  ['ا', 'ب', 'ة', 'ت', 'ث', 'ج', 'ح', 'خ', 'د', 'ذ', 'ر', 'ز', 'س', 'ش',
   'ص', 'ض', 'ط', 'ظ', 'ع', 'غ', 'ف', 'ق', 'ك', 'ل', 'م', 'ن', 'ه', 'و',
   'ى', 'ي', 'ء', 'آ', 'أ', 'ؤ', 'إ', 'ئ']

def harakat : List Char := [KASRA, FATHA, DAMMA]
def sukunList : List Char := [SUKUN]
def mostly_saken : List Char := [ALEF, WAW, ALEF_MAKSURA, YEH]
def tnween_chars : List Char := [DAMMATAN, KASRATAN, FATHATAN]
def shadda_chars : List Char := [SHADDA]
def all_chars : List Char := LETTERS ++ [' ']
def prem_chars : List Char :=
  harakat ++ sukunList ++ mostly_saken ++ tnween_chars ++ shadda_chars ++ all_chars

/-- `_remove_extra_harakat`: of two adjacent short-vowel marks, drop the
first (last mark wins). -/
def removeExtraHarakat : List Char → List Char
  | [] => []
  | [c] => [c]
  | c1 :: c2 :: rest =>
    if c1 ∈ harakat ∧ c2 ∈ harakat then removeExtraHarakat (c2 :: rest)
    else c1 :: removeExtraHarakat (c2 :: rest)

/-- `text.replace(ALEF_MADDA, "ءَا")`. -/
def replaceMadda (l : List Char) : List Char :=
  l.flatMap (fun c => if c = ALEF_MADDA then [HAMZA, FATHA, ALEF] else [c])

/-- Python `str.strip()`. -/
def pyStrip (l : List Char) : List Char :=
  ((l.dropWhile Char.isWhitespace).reverse.dropWhile Char.isWhitespace).reverse

/-- `re.sub(" +", " ", ...)`: collapse runs of spaces (dropping the first
of two adjacent spaces, which collapses every run to a single space). -/
def collapseSpaces : List Char → List Char
  | [] => []
  | [c] => [c]
  | c1 :: c2 :: rest =>
    if c1 = ' ' ∧ c2 = ' ' then collapseSpaces (c2 :: rest)
    else c1 :: collapseSpaces (c2 :: rest)

/-- `_handle_space`: drop the trailing character of the running phonetic
spelling (two characters when it ends with a space). -/
def handleSpace (plain : List Char) : List Char :=
  if plain = [] then plain
  else if plain.getLast? = some ' ' then plain.dropLast.dropLast
  else plain.dropLast

/-- The body of the `while i < len(chars) - 1` scanner of
`_extract_pattern`, as one fuel-indexed recursion.  Each Python iteration
advances `i` by at least one (the letter-letter branch nets `+1` via its
`i -= 1` before the final `i += 2`), so `chars.length` units of fuel are
enough for the loop condition to fail first; the fuel never runs out on the
paths the source executes.  State is `(i, out_pattern, plain_chars)`. -/
def extractLoop (muqayyad : Bool) (chars : List Char) :
    Nat → Nat → List Char → List Char → List Char × List Char
  | 0, _, pat, plain => (pat, plain)
  | fuel + 1, i, pat, plain =>
    let n := chars.length
    if i + 1 < n then
      let char := chars.getD i ' '
      let next0 := chars.getD (i + 1) ' '
      if char ∈ all_chars then
        if char = ' ' then
          extractLoop muqayyad chars fuel (i + 1) pat (plain ++ [' '])
        else
          -- lookahead across an elided single space
          let next_char := if next0 = ' ' ∧ i + 2 < n then chars.getD (i + 2) ' ' else next0
          let next_next : Option Char := if i + 2 < n then some (chars.getD (i + 2) ' ') else none
          let prev_digit : Option Char := pat.getLast?
          -- the main dispatch: new pattern, new plain, and the advance of i
          let step : List Char × List Char × Nat :=
            if next_char ∈ harakat then
              -- both sub-branches of the muqayyad last-group case emit '0'
              if muqayyad ∧ i + 2 ≥ n then (pat ++ ['0'], plain ++ [char], 2)
              else (pat ++ ['1'], plain ++ [char], 2)
            else if next_char ∈ sukunList then
              if prev_digit ≠ some '0' then (pat ++ ['0'], plain ++ [char], 2)
              else if i + 1 = n - 1 then (pat ++ ['0'], plain ++ [char], 2)
              else (pat, handleSpace plain ++ [char], 2)
            else if next_char ∈ tnween_chars then
              let plain1 := (if char ≠ ALEF then plain ++ [char] else plain) ++ [NOON]
              let pat1 := pat ++ ['1', '0']
              if i + 2 < n ∧ chars.getD (i + 2) ' ' = ALEF then (pat1, plain1, 3)
              else (pat1, plain1, 2)
            else if next_char ∈ shadda_chars then
              let pp :=
                if prev_digit ≠ some '0' then (pat ++ ['0', '1'], plain ++ [char, char])
                else (pat ++ ['1'], handleSpace plain ++ [char, char])
              if i + 2 < n then
                let c2 := chars.getD (i + 2) ' '
                if c2 ∈ harakat then
                  if muqayyad ∧ i + 3 ≥ n then (pp.1.dropLast ++ ['0'], pp.2, 3)
                  else (pp.1, pp.2, 3)
                else if c2 ∈ tnween_chars then
                  let pat2 := pp.1 ++ ['0']
                  let plain2 := pp.2 ++ [NOON]
                  if i + 3 < n ∧ chars.getD (i + 3) ' ' = ALEF then (pat2, plain2, 4)
                  else (pat2, plain2, 3)
                else (pp.1, pp.2, 2)
              else (pp.1, pp.2, 2)
            else if next_char = ALEF ∨ next_char = ALEF_MAKSURA then
              (pat ++ ['1', '0'], plain ++ [char, next_char], 2)
            else if next_char ∈ all_chars then
              -- letter followed by letter; the source's `i -= 1` makes the
              -- net advance 1
              if prev_digit ≠ some '0' then (pat ++ ['0'], plain ++ [char], 1)
              else if prev_digit = some '0' ∧ i + 1 < n ∧ chars.getD (i + 1) ' ' = ' ' then
                (pat ++ ['1'], plain ++ [char], 1)
              else (pat ++ ['0'], handleSpace plain ++ [char], 1)
            else (pat, plain, 2)
          -- the word-final ha' saturation check runs after the dispatch
          let withHa : List Char × List Char :=
            if ¬muqayyad ∧ next_next = some ' ' ∧ prev_digit ≠ some '0' ∧ char = HEH then
              if next_char = KASRA then (step.1 ++ ['0'], step.2.1 ++ [YEH])
              else if next_char = DAMMA then (step.1 ++ ['0'], step.2.1 ++ [WAW])
              else (step.1, step.2.1)
            else (step.1, step.2.1)
          extractLoop muqayyad chars fuel (i + step.2.2) withHa.1 withHa.2
      else if char = ALEF then
        extractLoop muqayyad chars fuel (i + 1) (pat ++ ['0']) (plain ++ [char])
      else
        extractLoop muqayyad chars fuel (i + 1) pat plain
    else (pat, plain)

/-- The end-of-stream pattern closure: in full saturation (not muqayyad)
force a trailing `'0'` when the pattern is non-empty and does not already
end in one. -/
def finalizePattern (muqayyad saturate : Bool) (pat : List Char) : List Char :=
  if ¬muqayyad ∧ saturate ∧ pat ≠ [] ∧ pat.getLast? ≠ some '0' then pat ++ ['0'] else pat

/-- The Ishba' (vowel saturation) of the very last character, applied to the
phonetic spelling only. -/
def ishbaaStep (muqayyad saturate : Bool) (chars plain : List Char) : List Char :=
  if ¬muqayyad ∧ saturate ∧ chars ≠ [] then
    let last := (chars.getLast?).getD ' '
    if last = KASRA then plain ++ [YEH]
    else if last = KASRATAN then plain.dropLast ++ [YEH]
    else if last = FATHA then plain ++ [ALEF]
    else if last = DAMMA then plain ++ [WAW]
    else if last = DAMMATAN then plain.dropLast ++ [WAW]
    else if last ∈ mostly_saken ∧ 1 < chars.length ∧
        chars.getD (chars.length - 2) ' ' ∉ tnween_chars then plain ++ [last]
    else plain
  else plain

/-- `ArudiConverter._extract_pattern`: preprocessing (duplicate-vowel
removal, madda decomposition, strip, legal-character filter, space
collapsing), the scan loop, the pattern closure, and the Ishba' step.
Returns `(plain_chars, out_pattern)`. -/
def extract_pattern (text : List Char) (saturate muqayyad : Bool) : List Char × List Char :=
  let t1 := removeExtraHarakat text
  let chars0 := pyStrip (replaceMadda t1)
  let chars1 := chars0.filter (fun c => c ∈ prem_chars)
  let chars := collapseSpaces (pyStrip chars1)
  let scanned := extractLoop muqayyad chars chars.length 0 [] []
  let pat1 := finalizePattern muqayyad saturate scanned.1
  let plain1 := ishbaaStep muqayyad saturate chars scanned.2
  (plain1, pat1)

/-!
## Theorems

Shared helper lemmas first, then one theorem per specification claim
(with a witness when the theorem carries hypotheses, and a concrete
counterexample when the claim as stated fails on the code).
-/

/-- A concrete similarity function used for witnesses and counterexamples
(any similarity instantiates the parameterised theorems). -/
def simZero : List Char → List Char → ℚ := fun _ _ => 0

/-- Deleting at a larger index first and a smaller index second removes
exactly the two originally-addressed positions: the earlier (higher)
deletion never invalidates the later (lower) index. -/
theorem eraseIdx_eraseIdx_of_lt (l : List Nat) (i j : Nat) (h : j < i) :
    (l.eraseIdx i).eraseIdx j =
      l.take j ++ (l.drop (j + 1)).take (i - j - 1) ++ l.drop (i + 1) := by
  induction l generalizing i j with
  | nil => simp
  | cons a tl ih =>
    cases j with
    | zero =>
      cases i with
      | zero => omega
      | succ i' =>
        simp [List.eraseIdx_eq_take_drop_succ]
    | succ j' =>
      cases i with
      | zero => omega
      | succ i' =>
        have hji : j' < i' := by omega
        have harith : i' + 1 - (j' + 1) - 1 = i' - j' - 1 := by omega
        simp only [List.eraseIdx_cons_succ, List.take_succ_cons, List.drop_succ_cons,
          ih i' j' hji, harith, List.cons_append]

/-- The enumeration loop returns all successful applications, skipping only
assertion failures, provided no allowed rule raises a non-assertion
error. -/
theorem allFormsAux_ok_of_no_fatal (t : Tafeela) (zs : List ZehafKind)
    (h : ∀ z ∈ zs, applyZehaf z t ≠ .error .indexError ∧ applyZehaf z t ≠ .error .valueError) :
    allFormsAux t zs = .ok (zs.filterMap (fun z => (applyZehaf z t).toOption)) := by
  induction zs with
  | nil => rfl
  | cons z zs ih =>
    have hz := h z (List.mem_cons_self z zs)
    have hrest := fun z' hz' => h z' (List.mem_cons_of_mem z hz')
    unfold allFormsAux
    cases hap : applyZehaf z t with
    | ok f => simp [hap, ih hrest, Except.toOption, Except.map, List.filterMap_cons]
    | error e =>
      cases e with
      | assertionError => simp [hap, ih hrest, Except.toOption, Except.map, List.filterMap_cons]
      | indexError => exact absurd hap hz.1
      | valueError => exact absurd hap hz.2

/-- Claim C10: for every Tafeela and every index outside `[0, len(pattern))`,
`delete_from_pattern` and `edit_pattern_at_index` are silent no-ops: the
object (bit sequence and integer encoding alike) is returned unchanged and
no error is raised. -/
theorem c10_out_of_range_noop (t : Tafeela) (i : Int) (n : Nat)
    (h : i < 0 ∨ (t.pattern.length : Int) ≤ i) :
    t.delete_from_pattern i = .ok t ∧ t.edit_pattern_at_index i n = t := by
  have hc : ¬(0 ≤ i ∧ i < (t.pattern.length : Int)) := by omega
  constructor
  · unfold Tafeela.delete_from_pattern
    rw [if_neg hc]
  · unfold Tafeela.edit_pattern_at_index
    rw [if_neg hc]

theorem c10_witness :
    Fawlon.delete_from_pattern 5 = .ok Fawlon ∧ Fawlon.edit_pattern_at_index 5 0 = Fawlon :=
  c10_out_of_range_noop Fawlon 5 0 (by decide)

/-- Claim C5: for every catalog Tafeela, `all_zehaf_tafeela_forms` returns
the canonical form followed by the result of each declared transformation
whose precondition holds, each applied independently to the canonical form,
and no two returned forms share a bit sequence. -/
theorem c5_enumerate_variants :
    ∀ t ∈ catalogTafeelas,
      t.all_zehaf_tafeela_forms =
          .ok (t :: t.allowed_zehafs.filterMap (fun z => (applyZehaf z t).toOption)) ∧
        ((t :: t.allowed_zehafs.filterMap (fun z => (applyZehaf z t).toOption)).map
            Tafeela.pattern).Nodup := by
  decide

theorem c5_witness :
    Fawlon.all_zehaf_tafeela_forms =
        .ok (Fawlon :: Fawlon.allowed_zehafs.filterMap (fun z => (applyZehaf z Fawlon).toOption)) ∧
      ((Fawlon :: Fawlon.allowed_zehafs.filterMap (fun z => (applyZehaf z Fawlon).toOption)).map
          Tafeela.pattern).Nodup :=
  c5_enumerate_variants Fawlon (by decide)

/-- Claim C6 counterexample: a Tafeela whose bits violate the Edmaar
precondition because the affected position does not exist (pattern `[1]`,
no index 1).  Enumeration does not silently exclude the candidate — it
surfaces an uncaught `IndexError` to the caller. -/
theorem c6_counterexample :
    Tafeela.all_zehaf_tafeela_forms
        { name := "b", pattern := [1], pattern_int := 1,
          allowed_zehafs := [.edmaar], applied_ella_zehaf_class := none } =
      .error .indexError := by
  decide

/-- Claim C6, amended: for every Tafeela whose allowed rules raise no
out-of-range (index) or empty-pattern (value) error — in particular
whenever every precondition check can be evaluated — a rule whose
precondition fails is silently excluded from the enumerated forms and the
remaining admissible forms are exactly the successful applications, in
order, unaffected by the rejected ones. -/
theorem c6_precondition_silent_rejection (t : Tafeela)
    (h : ∀ z ∈ t.allowed_zehafs,
      applyZehaf z t ≠ .error .indexError ∧ applyZehaf z t ≠ .error .valueError) :
    t.all_zehaf_tafeela_forms =
      .ok (t :: t.allowed_zehafs.filterMap (fun z => (applyZehaf z t).toOption)) := by
  unfold Tafeela.all_zehaf_tafeela_forms
  rw [allFormsAux_ok_of_no_fatal t t.allowed_zehafs h]
  rfl

theorem c6_witness :
    Tafeela.all_zehaf_tafeela_forms
        { name := "w", pattern := [1, 0, 1, 1, 0], pattern_int := 10110,
          allowed_zehafs := [.edmaar, .khaban], applied_ella_zehaf_class := none } =
      .ok ({ name := "w", pattern := [1, 0, 1, 1, 0], pattern_int := 10110,
             allowed_zehafs := [.edmaar, .khaban], applied_ella_zehaf_class := none } ::
        ([ZehafKind.edmaar, ZehafKind.khaban].filterMap
          (fun z => (applyZehaf z
            { name := "w", pattern := [1, 0, 1, 1, 0], pattern_int := 10110,
              allowed_zehafs := [.edmaar, .khaban],
              applied_ella_zehaf_class := none }).toOption))) :=
  c6_precondition_silent_rejection _ (by decide)

/-- Claim C7 counterexample: the doubled rule Khabal declares its
constituents as `[Khaban, Tay]` (delete index 1, then delete index 3), but
on Mustafelon the code computes `11110` while applying the constituents
strictly in declared order with propagation computes `11010`. -/
theorem c7_counterexample :
    (applyZehaf .khabal Mustafelon).map Tafeela.pattern = .ok [1, 1, 1, 1, 0] ∧
      (declaredOrderApply (ZehafKind.khabal.doubledConstituents.getD []) Mustafelon).map
          Tafeela.pattern = .ok [1, 1, 0, 1, 0] ∧
      (applyZehaf .khabal Mustafelon).map Tafeela.pattern ≠
        (declaredOrderApply (ZehafKind.khabal.doubledConstituents.getD []) Mustafelon).map
          Tafeela.pattern := by
  decide

/-- Claim C7, amended: a doubled composite does not run its constituents in
declared order; it applies all constituent deletions first, at their
affected indices sorted descending, then the constituent devocalizations in
declared order, propagating each result into the next.  For each doubled
rule of the catalog this yields the explicit sequencing below, and deleting
at a larger index before a smaller one removes exactly the two positions
addressed in the original pattern (earlier deletions never invalidate later
indices). -/
theorem c7_doubled_order :
    (∀ t : Tafeela,
      modifyZehaf .khabal t = (t.delete_from_pattern 3 >>= fun x => x.delete_from_pattern 1) ∧
      modifyZehaf .shakal t = (t.delete_from_pattern 6 >>= fun x => x.delete_from_pattern 1) ∧
      modifyZehaf .tayAndKasf t = (t.delete_from_pattern 6 >>= fun x => x.delete_from_pattern 3) ∧
      modifyZehaf .tharm t = (t.delete_from_pattern 4 >>= fun x => x.delete_from_pattern 0) ∧
      modifyZehaf .khazal t = (t.delete_from_pattern 3 >>= applyL1 .edmaar) ∧
      modifyZehaf .nakas t = (t.delete_from_pattern 6 >>= applyL1 .asab)) ∧
    (∀ (l : List Nat) (i j : Nat), j < i →
      (l.eraseIdx i).eraseIdx j =
        l.take j ++ (l.drop (j + 1)).take (i - j - 1) ++ l.drop (i + 1)) := by
  constructor
  · intro t
    refine ⟨?_, ?_, ?_, ?_, ?_, ?_⟩ <;>
      simp [modifyZehaf, modifyDoubled, ZehafKind.doubledConstituents, sortDesc, insertDesc,
        ZehafKind.singleHazfIndex, ZehafKind.singleTaskeenIndex, List.filter, List.filterMap,
        List.foldlM, bind_pure]
  · exact fun l i j h => eraseIdx_eraseIdx_of_lt l i j h

theorem c7_witness :
    ([0, 1, 2, 3, 4].eraseIdx 3).eraseIdx 1 =
      [0, 1, 2, 3, 4].take 1 ++ ([0, 1, 2, 3, 4].drop 2).take 1 ++ [0, 1, 2, 3, 4].drop 4 :=
  c7_doubled_order.2 [0, 1, 2, 3, 4] 3 1 (by decide)

/-- Reading below the old length is unaffected by an allocation. -/
theorem heapRead_append_lt (h : TafHeap) (t : Tafeela) (j : Nat) (hj : j < h.length) :
    heapRead (h ++ [t]) j = heapRead h j := by
  simp [heapRead, List.getD, List.getElem?_append, hj]

/-- Reading an address other than the written one is unaffected by a write. -/
theorem heapRead_set_ne (h : TafHeap) (i j : Nat) (v : Tafeela) (hne : i ≠ j) :
    heapRead (h.set i v) j = heapRead h j := by
  simp [heapRead, List.getD, List.getElem?_set, hne]

/-- One zehaf application only allocates and writes at the fresh copy's
address: every pre-existing cell is untouched, and the heap only grows. -/
theorem applyZehafHeap_frame (k : ZehafKind) (h : TafHeap) (a j : Nat) (hj : j < h.length) :
    heapRead (applyZehafHeap k h a).1 j = heapRead h j ∧
      h.length ≤ (applyZehafHeap k h a).1.length := by
  unfold applyZehafHeap zehafInitHeap heapAlloc modifiedTafeelaHeap
  cases happ : applyZehaf k (heapRead (h ++ [heapRead h a]) h.length) with
  | ok t' =>
    refine ⟨?_, ?_⟩
    · simp only [happ]
      rw [heapRead_set_ne _ _ _ _ (by omega), heapRead_append_lt _ _ _ hj]
    · simp only [happ, List.length_set, List.length_append]
      omega
  | error e =>
    refine ⟨?_, ?_⟩
    · simp only [happ]
      rw [heapRead_append_lt _ _ _ hj]
    · simp only [happ, List.length_append]
      omega

/-- The enumeration loop preserves every pre-existing heap cell. -/
theorem allFormsHeapAux_frame (a : Nat) (zs : List ZehafKind) (h : TafHeap) (j : Nat)
    (hj : j < h.length) :
    heapRead (allFormsHeapAux a zs h).1 j = heapRead h j ∧
      h.length ≤ (allFormsHeapAux a zs h).1.length := by
  induction zs generalizing h with
  | nil => exact ⟨rfl, le_refl _⟩
  | cons z zs ih =>
    obtain ⟨hf, hl⟩ := applyZehafHeap_frame z h a j hj
    unfold allFormsHeapAux
    split
    next h1 addr heq =>
      rw [heq] at hf hl
      have hj1 : j < h1.length := lt_of_lt_of_le hj hl
      obtain ⟨hf2, hl2⟩ := ih h1 hj1
      split
      next h2 addrs heq2 =>
        rw [heq2] at hf2 hl2
        exact ⟨hf2.trans hf, le_trans hl hl2⟩
      next h2 e heq2 =>
        rw [heq2] at hf2 hl2
        exact ⟨hf2.trans hf, le_trans hl hl2⟩
    next h1 heq =>
      rw [heq] at hf hl
      have hj1 : j < h1.length := lt_of_lt_of_le hj hl
      obtain ⟨hf2, hl2⟩ := ih h1 hj1
      exact ⟨hf2.trans hf, le_trans hl hl2⟩
    next h1 e hne heq =>
      rw [heq] at hf hl
      exact ⟨hf, hl⟩

/-- Claim C9: because `BaseEllahZehaf.__init__` deep-copies its argument
into a fresh cell and every mutation targets the zehaf's own cell,
enumerating all variant forms of a Tafeela leaves the original object —
its bit sequence included — unchanged, and so does each individual
transformation. -/
theorem c9_enumeration_preserves_original (h : TafHeap) (a : Nat) (ha : a < h.length) :
    heapRead (allFormsHeap h a).1 a = heapRead h a ∧
      ∀ k : ZehafKind, heapRead (applyZehafHeap k h a).1 a = heapRead h a := by
  constructor
  · unfold allFormsHeap
    have hfr := allFormsHeapAux_frame a (heapRead h a).allowed_zehafs h a ha
    split
    next h1 addrs heq => rw [heq] at hfr; exact hfr.1
    next r heq => exact hfr.1
  · intro k
    exact (applyZehafHeap_frame k h a a ha).1

theorem c9_witness :
    heapRead (allFormsHeap [Fawlon] 0).1 0 = heapRead [Fawlon] 0 ∧
      ∀ k : ZehafKind, heapRead (applyZehafHeap k [Fawlon] 0).1 0 = heapRead [Fawlon] 0 :=
  c9_enumeration_preserves_original [Fawlon] 0 (by decide)

/-- `int(...)` of a digit string is injective on bit sequences that start
with a nonzero digit (no leading zeros), which is what makes comparing
`pattern_int` equivalent to comparing patterns. -/
theorem digitsToNat_inj (l1 l2 : List Nat)
    (hd1 : ∀ x ∈ l1, x < 10) (hd2 : ∀ x ∈ l2, x < 10)
    (hh1 : l1.head? = some 1) (hh2 : l2.head? = some 1)
    (h : digitsToNat l1 = digitsToNat l2) : l1 = l2 := by
  have last1 : l1.reverse.getLast? = some 1 := by rw [List.getLast?_reverse]; exact hh1
  have last2 : l2.reverse.getLast? = some 1 := by rw [List.getLast?_reverse]; exact hh2
  have r1 : Nat.digits 10 (Nat.ofDigits 10 l1.reverse) = l1.reverse :=
    Nat.digits_ofDigits 10 (by norm_num) _ (fun x hx => hd1 x (List.mem_reverse.mp hx))
      (fun hne => by
        rw [List.getLast?_eq_getLast _ hne] at last1
        injection last1 with hv
        rw [hv]
        exact one_ne_zero)
  have r2 : Nat.digits 10 (Nat.ofDigits 10 l2.reverse) = l2.reverse :=
    Nat.digits_ofDigits 10 (by norm_num) _ (fun x hx => hd2 x (List.mem_reverse.mp hx))
      (fun hne => by
        rw [List.getLast?_eq_getLast _ hne] at last2
        injection last2 with hv
        rw [hv]
        exact one_ne_zero)
  have hrev : l1.reverse = l2.reverse := by
    rw [← r1, ← r2]
    unfold digitsToNat at h
    rw [h]
  simpa using congrArg List.reverse hrev

/-- Claim C8: for every two Tafeela values the system constructs (canonical
or transformed), `__eq__` holds if and only if their bit sequences are
equal — the names play no role.  Every constructed pattern starts with the
digit 1, so the `pattern_int` comparison performed by `__eq__` cannot
identify distinct bit sequences. -/
theorem c8_eq_iff_bits (t1 t2 : Tafeela)
    (h1 : t1 ∈ reachableTafeelas) (h2 : t2 ∈ reachableTafeelas) :
    tafeelaEq t1 t2 = true ↔ t1.pattern = t2.pattern := by
  have key : ∀ t ∈ reachableTafeelas,
      t.pattern_int = digitsToNat t.pattern ∧ t.pattern.head? = some 1 ∧
        ∀ x ∈ t.pattern, x < 10 := by decide
  obtain ⟨e1, hh1, hd1⟩ := key t1 h1
  obtain ⟨e2, hh2, hd2⟩ := key t2 h2
  constructor
  · intro h
    have hint : t1.pattern_int = t2.pattern_int := by
      simpa [tafeelaEq] using h
    rw [e1, e2] at hint
    exact digitsToNat_inj _ _ hd1 hd2 hh1 hh2 hint
  · intro h
    simp [tafeelaEq, e1, e2, h]

theorem c8_witness :
    tafeelaEq Mustafelon Mustafe_lon = true ∧ Mustafelon.name ≠ Mustafe_lon.name :=
  ⟨(c8_eq_iff_bits Mustafelon Mustafe_lon (by decide) (by decide)).mpr (by decide),
    by decide⟩

/-- One foot step keeps the cursor within the input, consumes exactly the
reported actual segment on `ok`/`broken`, consumes nothing on `missing`,
and never reports `extra_bits`. -/
theorem analyzeFootStep_spec (sim : List Char → List Char → ℚ) (input : List Char)
    (cands : List (List Char)) (i cur : Nat) (h : cur ≤ input.length) :
    cur ≤ (analyzeFootStep sim input cands i cur).2 ∧
      (analyzeFootStep sim input cands i cur).2 ≤ input.length ∧
      (((analyzeFootStep sim input cands i cur).1.status = .ok ∨
          (analyzeFootStep sim input cands i cur).1.status = .broken) →
        (analyzeFootStep sim input cands i cur).1.actual_segment.length =
          (analyzeFootStep sim input cands i cur).2 - cur) ∧
      ((analyzeFootStep sim input cands i cur).1.status = .missing →
        (analyzeFootStep sim input cands i cur).2 = cur) ∧
      (analyzeFootStep sim input cands i cur).1.status ≠ .extra_bits := by
  unfold analyzeFootStep
  cases hb : pyFalsyOpt (acceptedCandidate sim input cands cur) with
  | true => simp [hb, h]
  | false =>
    simp only [hb, Bool.false_eq_true, if_false]
    set best := (acceptedCandidate sim input cands cur).getD [] with hbest
    set end_idx := min (cur + best.length) input.length with hend
    have hcurle : cur ≤ end_idx := by omega
    have hendle : end_idx ≤ input.length := by omega
    have hlen : ((input.drop cur).take (end_idx - cur)).length = end_idx - cur := by
      simp only [List.length_take, List.length_drop]
      omega
    by_cases hempty : (input.drop cur).take (end_idx - cur) = ([] : List Char)
    · simp only [hempty, if_true, eq_self_iff_true, List.length_nil]
      have hcc : end_idx = cur := by
        rw [hempty] at hlen
        simp at hlen
        omega
      exact ⟨hcurle, hendle, by simp, fun _ => hcc, by simp⟩
    · simp only [hempty, if_false]
      by_cases hsc : sim best ((input.drop cur).take (end_idx - cur)) = 1
      · simp only [hsc, if_true]
        exact ⟨hcurle, hendle, fun _ => hlen, by simp, by simp⟩
      · simp only [hsc, if_false]
        exact ⟨hcurle, hendle, fun _ => hlen, by simp, by simp⟩

/-- The foot loop keeps the cursor within the input and the total consumed
length of its `ok`/`broken` entries equals the cursor displacement. -/
theorem analyzeFeetAux_spec (sim : List Char → List Char → ℚ) (input : List Char)
    (cl : List (List (List Char))) (i cur : Nat) (h : cur ≤ input.length) :
    cur ≤ (analyzeFeetAux sim input cl i cur).2 ∧
      (analyzeFeetAux sim input cl i cur).2 ≤ input.length ∧
      (((analyzeFeetAux sim input cl i cur).1.filter
          (fun e => e.status == FootStatus.ok || e.status == FootStatus.broken ||
            e.status == FootStatus.extra_bits)).map
        (fun e => e.actual_segment.length)).sum =
        (analyzeFeetAux sim input cl i cur).2 - cur := by
  induction cl generalizing i cur with
  | nil => simpa [analyzeFeetAux] using h
  | cons cands rest ih =>
    obtain ⟨h1, h2, h3, h4, h5⟩ := analyzeFootStep_spec sim input cands i cur h
    obtain ⟨g1, g2, g3⟩ := ih (i + 1) (analyzeFootStep sim input cands i cur).2 h2
    unfold analyzeFeetAux
    cases hs : analyzeFootStep sim input cands i cur with
    | mk entry cur' =>
      rw [hs] at h1 h2 h3 h4 h5 g1 g2 g3
      simp only [] at h1 h2 h3 h4 h5 g1 g2 g3
      cases hr : analyzeFeetAux sim input rest (i + 1) cur' with
      | mk es curF =>
        rw [hr] at g1 g2 g3
        simp only [] at g1 g2 g3
        simp only [hr]
        refine ⟨le_trans h1 g1, g2, ?_⟩
        cases hst : entry.status with
        | ok =>
          have hc := h3 (Or.inl hst)
          simp only [List.filter_cons, hst]
          simp [g3, hc]
          omega
        | broken =>
          have hc := h3 (Or.inr hst)
          simp only [List.filter_cons, hst]
          simp [g3, hc]
          omega
        | missing =>
          have hc := h4 hst
          simp only [List.filter_cons, hst]
          simp [g3, hc]
        | extra_bits => exact absurd hst h5

/-- Claim C2: for every input pattern and per-position candidate sets, the
consumed lengths of all `ok`/`broken` entries plus the trailing
`extra_bits` entry (when present) sum to the input length (`missing`
entries consume nothing). -/
theorem c2_alignment_total_length (sim : List Char → List Char → ℚ) (input : List Char)
    (allowed : List (List (List Char))) (ref : Option RefItem) :
    (((analyzeFeet sim input allowed ref).filter
        (fun e => e.status == FootStatus.ok || e.status == FootStatus.broken ||
          e.status == FootStatus.extra_bits)).map
      (fun e => e.actual_segment.length)).sum = input.length := by
  have main : ∀ cl : List (List (List Char)),
      (((if (analyzeFeetAux sim input cl 0 0).2 < input.length then
            (analyzeFeetAux sim input cl 0 0).1 ++
              [{ foot_index := cl.length, expected_pattern := [],
                 actual_segment := input.drop (analyzeFeetAux sim input cl 0 0).2,
                 score := 0, status := FootStatus.extra_bits }]
          else (analyzeFeetAux sim input cl 0 0).1).filter
          (fun e => e.status == FootStatus.ok || e.status == FootStatus.broken ||
            e.status == FootStatus.extra_bits)).map
        (fun e => e.actual_segment.length)).sum = input.length := by
    intro cl
    obtain ⟨g1, g2, g3⟩ := analyzeFeetAux_spec sim input cl 0 0 (Nat.zero_le _)
    cases hr : analyzeFeetAux sim input cl 0 0 with
    | mk es curF =>
      rw [hr] at g1 g2 g3
      simp only [] at g1 g2 g3 ⊢
      by_cases hlt : curF < input.length
      · simp only [hlt, if_true, List.filter_append, List.map_append, List.sum_append]
        simp [g3]
        omega
      · simp only [hlt, if_false]
        simp [g3]
        omega
  exact main _

/-- Claim C3 counterexample: input `101` against one candidate `10110`.
The candidate is accepted (the entry is `broken` and names it as expected),
but the cursor advances by 3 — the length of the actually consumed
segment clamped at the end of input — not by the accepted candidate's
length 5. -/
theorem c3_counterexample :
    (analyzeFootStep simZero ['1', '0', '1'] [['1', '0', '1', '1', '0']] 0 0).1.expected_pattern =
        ['1', '0', '1', '1', '0'] ∧
      (analyzeFootStep simZero ['1', '0', '1'] [['1', '0', '1', '1', '0']] 0 0).1.status =
        FootStatus.broken ∧
      (analyzeFootStep simZero ['1', '0', '1'] [['1', '0', '1', '1', '0']] 0 0).2 = 3 ∧
      (analyzeFootStep simZero ['1', '0', '1'] [['1', '0', '1', '1', '0']] 0 0).2 ≠
        0 + (analyzeFootStep simZero ['1', '0', '1'] [['1', '0', '1', '1', '0']]
          0 0).1.expected_pattern.length := by
  decide

/-- Claim C3, amended: after a candidate is accepted for a position, the
cursor advances by the accepted candidate's length clamped to the end of
the input — in particular by exactly the candidate's length whenever that
much input remains. -/
theorem c3_cursor_advance_clamped (sim : List Char → List Char → ℚ) (input : List Char)
    (cands : List (List Char)) (i cur : Nat)
    (hacc : pyFalsyOpt (acceptedCandidate sim input cands cur) = false) :
    (analyzeFootStep sim input cands i cur).2 =
      min (cur + ((acceptedCandidate sim input cands cur).getD []).length) input.length ∧
      (cur + ((acceptedCandidate sim input cands cur).getD []).length ≤ input.length →
        (analyzeFootStep sim input cands i cur).2 =
          cur + ((acceptedCandidate sim input cands cur).getD []).length) := by
  constructor
  · unfold analyzeFootStep
    simp [hacc]
  · intro hle
    unfold analyzeFootStep
    simp [hacc]
    omega

theorem c3_witness :
    (analyzeFootStep simZero ['1', '0', '1', '1', '0'] [['1', '0', '1', '1', '0']] 0 0).2 =
      min (0 + ((acceptedCandidate simZero ['1', '0', '1', '1', '0']
          [['1', '0', '1', '1', '0']] 0).getD []).length)
        (['1', '0', '1', '1', '0'] : List Char).length :=
  (c3_cursor_advance_clamped simZero ['1', '0', '1', '1', '0'] [['1', '0', '1', '1', '0']]
    0 0 (by decide)).1

/-- The detection pass produces one record per verse. -/
theorem buildTemp_length (sim : List Char → List Char → ℚ)
    (prep : List Char → List Char × List Char) (table : List (String × MeterPatterns))
    (forced : Bool) (i : Nat) (vs : List (List Char × List Char)) :
    (buildTemp sim prep table forced i vs).length = vs.length := by
  induction vs generalizing i with
  | nil => rfl
  | cons v vs ih => simp [buildTemp, ih]

/-- The `most_common` fold never loses an already-selected element. -/
theorem mostCommon1_foldl_some (l xs : List String) (b : String) :
    xs.foldl (fun acc x => match acc with
      | none => some x
      | some b => if l.count b < l.count x then some x else acc) (some b) ≠ none := by
  induction xs generalizing b with
  | nil => simp
  | cons x xs ih =>
    simp only [List.foldl_cons]
    by_cases hc : l.count b < l.count x
    · simpa [hc] using ih x
    · simpa [hc] using ih b

/-- `Counter.most_common(1)` is empty exactly on an empty tally. -/
theorem mostCommon1_eq_none_iff (l : List String) : mostCommon1 l = none ↔ l = [] := by
  constructor
  · intro h
    cases l with
    | nil => rfl
    | cons a as =>
      unfold mostCommon1 dedupKeepFirst at h
      rw [show dedupAux [] (a :: as) = a :: dedupAux [a] as from by simp [dedupAux]] at h
      simp only [List.foldl_cons] at h
      exact absurd h (mostCommon1_foldl_some (a :: as) (dedupAux [a] as) a)
  · intro h
    subst h
    rfl

/-- With auto-detection active, the detected-meter tally is empty exactly
when no verse produced any candidate. -/
theorem buildTemp_detected_nil_iff (sim : List Char → List Char → ℚ)
    (prep : List Char → List Char × List Char) (table : List (String × MeterPatterns))
    (i : Nat) (vs : List (List Char × List Char)) :
    ((buildTemp sim prep table false i vs).filterMap
        (fun r => r.matchInfo.map (fun c => c.meter))) = [] ↔
      ∀ v ∈ vs, findBestMeter sim table (prep v.1).2
        (if v.2 = [] then [] else (prep v.2).2) = [] := by
  induction vs generalizing i with
  | nil => simp [buildTemp]
  | cons v vs ih =>
    unfold buildTemp prepareVerse
    simp only [List.filterMap_cons]
    cases hm : findBestMeter sim table (prep v.1).2 (if v.2 = [] then [] else (prep v.2).2) with
    | nil =>
      simp only [hm, Bool.false_eq_true, if_false]
      simp [ih (i + 1), hm]
    | cons c cs =>
      simp only [hm, Bool.false_eq_true, if_false]
      simp [hm]

/-- Claim C1: `process_poem` returns the top-level detection-error result —
and nothing else, with no partial per-verse output — if and only if no
meter was auto-detected for any verse and no (truthy) meter name was
forced; in every other case it returns a meter name plus one analysis per
verse.  Holds for every converter, similarity function, pattern table and
allowed-feet lookup, hence for the concrete ones. -/
theorem c1_process_poem_error_iff (sim : List Char → List Char → ℚ)
    (prep : List Char → List Char × List Char) (table : List (String × MeterPatterns))
    (feetOf : String → Option (List (List (List Char)) × List (List (List Char))))
    (verses : List (List Char × List Char)) (meterName : Option String) :
    ((processPoem sim prep table feetOf verses meterName =
        .errorResult "Could not detect any valid meter.") ↔
      (pyTruthyName meterName = false ∧
        ∀ v ∈ verses, findBestMeter sim table (prep v.1).2
          (if v.2 = [] then [] else (prep v.2).2) = [])) ∧
      (∀ msg, processPoem sim prep table feetOf verses meterName = .errorResult msg →
        msg = "Could not detect any valid meter.") ∧
      (∀ gm vs, processPoem sim prep table feetOf verses meterName = .result gm vs →
        vs.length = verses.length) := by
  unfold processPoem
  cases hf : pyTruthyName meterName with
  | true =>
    simp only [hf, if_true]
    refine ⟨?_, ?_, ?_⟩
    · simp
    · intro msg hmsg
      simp at hmsg
    · intro gm vs hr
      simp only [PoemResult.result.injEq] at hr
      rw [← hr.2]
      simp [buildTemp_length]
  | false =>
    simp only [hf, Bool.false_eq_true, if_false]
    cases hmc : mostCommon1 ((buildTemp sim prep table false 0 verses).filterMap
        (fun r => r.matchInfo.map (fun c => c.meter))) with
    | some gm =>
      simp only [hmc]
      have hne : ((buildTemp sim prep table false 0 verses).filterMap
          (fun r => r.matchInfo.map (fun c => c.meter))) ≠ [] := by
        intro hnil
        rw [(mostCommon1_eq_none_iff _).mpr hnil] at hmc
        exact Option.noConfusion hmc
      refine ⟨?_, ?_, ?_⟩
      · constructor
        · intro h
          exact absurd h (by simp)
        · intro ⟨_, hall⟩
          exact absurd ((buildTemp_detected_nil_iff sim prep table 0 verses).mpr hall) hne
      · intro msg hmsg
        simp at hmsg
      · intro gm' vs hr
        simp only [PoemResult.result.injEq] at hr
        rw [← hr.2]
        simp [buildTemp_length]
    | none =>
      simp only [hmc]
      have hnil := (mostCommon1_eq_none_iff _).mp hmc
      refine ⟨?_, ?_, ?_⟩
      · constructor
        · intro _
          exact ⟨trivial, (buildTemp_detected_nil_iff sim prep table 0 verses).mp hnil⟩
        · intro _
          trivial
      · intro msg hmsg
        simp only [PoemResult.errorResult.injEq] at hmsg
        exact hmsg.symm
      · intro gm vs hr
        exact absurd hr (by simp)

theorem c1_witness :
    processPoem simZero (fun s => (s, s)) [] (fun _ => none) [] none =
      .errorResult "Could not detect any valid meter." :=
  (c1_process_poem_error_iff simZero (fun s => (s, s)) [] (fun _ => none) [] none).1.mpr
    ⟨rfl, by simp⟩

/-- Claim C4: in full-saturation mode (`saturate` true, restricted-rhyme
`muqayyad` false), for every input text the produced binary pattern, when
non-empty, ends in `'0'`: the end-of-stream closure forces a trailing sakin
bit, and nothing after it touches the pattern. -/
theorem c4_saturated_pattern_ends_in_zero (text : List Char)
    (h : (extract_pattern text true false).2 ≠ []) :
    (extract_pattern text true false).2.getLast? = some '0' := by
  have main : ∀ pat : List Char, finalizePattern false true pat ≠ [] →
      (finalizePattern false true pat).getLast? = some '0' := by
    intro pat hne
    unfold finalizePattern at hne ⊢
    by_cases hc : (¬(false : Bool) = true ∧ (true : Bool) = true ∧ pat ≠ [] ∧
        pat.getLast? ≠ some '0')
    · rw [if_pos hc] at hne ⊢
      exact List.getLast?_concat _
    · rw [if_neg hc] at hne ⊢
      by_contra hlast
      exact hc ⟨by simp, rfl, hne, hlast⟩
  unfold extract_pattern at h ⊢
  simp only [] at h ⊢
  exact main _ h

theorem c4_witness :
    (extract_pattern ['ب', 'َ', 'ب', 'ْ'] true false).2 ≠ [] ∧
      (extract_pattern ['ب', 'َ', 'ب', 'ْ'] true false).2.getLast? = some '0' :=
  ⟨by decide, c4_saturated_pattern_ends_in_zero ['ب', 'َ', 'ب', 'ْ'] (by decide)⟩
